import Mathlib

/-
  Verification of the delorean write buffer (`delorean_write_buffer/src/database.rs`)
  and the query utilities (`query/src/util.rs`).

  The database hierarchy (Db → Partition → Table → Column, with a per-partition
  Dictionary) is embedded shallowly.  `database.rs` and `util.rs` are translated
  from the source; the supporting modules (`dictionary.rs`, `column.rs`,
  `table.rs`, `partition.rs`, `wal.rs`) are not part of the sources at hand and
  are modelled from the specification, as flagged on each definition.
-/

set_option autoImplicit false

namespace WriteBuffer

deriving instance DecidableEq for Except

/-- Errors of the write buffer, flattened from the `Error` enums of
`database.rs` and of the partition/table/dictionary modules it wraps
(`PartitionError` / `TableError` simply forward their sources, so the
wrapping is not modelled separately). -/
inductive Err where
  | tableNameNotFoundInDictionary (table : String) (partitionKey : String)
  | tableIdNotFoundInDictionary (table : Nat) (partitionKey : String)
  | columnNameNotFoundInDictionary (columnName : String) (partitionKey : String)
  | columnIdNotFoundInDictionary (columnId : Nat) (partitionKey : String)
  | columnValueIdNotFoundInDictionary (valueId : Nat) (partitionKey : String)
  | unsupportedColumnTypeForListingValues (columnName : String)
  | tableNotFoundInPartition (table : Nat) (partitionKey : String)
  | internalColumnNotFound (column : Nat)
  | internalColumnTypeMismatch (column : Nat)
  | schemaMismatch (expected : String) (found : String)
  | missingColumn (name : String)
  | writingWal (database : String)
  | unsupportedStatement (query : String)
  deriving Repr, DecidableEq

/-- `delorean_storage::TimestampRange`: half-open interval `[start, stop)` of
nanosecond timestamps (the source field `end` is a Lean keyword, renamed
`stop`). -/
structure TimestampRange where
  start : Int
  stop : Int
  deriving Repr, DecidableEq

/-- `TimestampRange::contains`: `start <= v && v < end`. -/
def TimestampRange.containsTs (r : TimestampRange) (v : Int) : Bool :=
  r.start ≤ v && v < r.stop

/-- `TimestampRange::contains_opt`: a missing (null) timestamp is never in
range. -/
def TimestampRange.containsOpt (r : TimestampRange) : Option Int → Bool
  | none => false
  | some v => r.containsTs v

/-- Modelled from the spec: the per-partition `Dictionary`, a bidirectional
mapping between unique strings and dense ids assigned from 0 in insertion
order.  Represented by the list of interned strings; the id of a string is its
index. -/
structure Dictionary where
  data : List String
  deriving Repr, DecidableEq

/-- Modelled from the spec: `Dictionary::lookup_value(s) → id?`. -/
def Dictionary.lookupValue (d : Dictionary) (s : String) : Option Nat :=
  d.data.findIdx? (· == s)

/-- Modelled from the spec: `Dictionary::lookup_id(id) → &str?`. -/
def Dictionary.lookupId (d : Dictionary) (id : Nat) : Option String :=
  d.data.get? id

/-- Modelled from the spec: `Dictionary::intern` inserts if absent and returns
the existing id otherwise; new ids are assigned densely in insertion order. -/
def Dictionary.intern (d : Dictionary) (s : String) : Nat × Dictionary :=
  match d.lookupValue s with
  | some id => (id, d)
  | none => (d.data.length, ⟨d.data ++ [s]⟩)

/-- Modelled from the spec: a `Column` is a tagged variant over
Tag/I64/F64/Bool/String, each storing a dense sequence of per-row optional
values.  Tag columns hold dictionary symbol ids, not strings.  F64 values are
represented by their IEEE-754 bit pattern, which no verified operation
inspects. -/
inductive Column where
  | tag (values : List (Option Nat))
  | i64 (values : List (Option Int))
  | f64 (values : List (Option Nat))
  | boolean (values : List (Option Bool))
  | string (values : List (Option String))
  deriving Repr, DecidableEq

/-- Modelled from the spec: `Column::len`. -/
def Column.len : Column → Nat
  | .tag vs => vs.length
  | .i64 vs => vs.length
  | .f64 vs => vs.length
  | .boolean vs => vs.length
  | .string vs => vs.length

/-- Modelled from the spec: `Column::push_null` extends the column by one
null. -/
def Column.pushNull : Column → Column
  | .tag vs => .tag (vs ++ [none])
  | .i64 vs => .i64 (vs ++ [none])
  | .f64 vs => .f64 (vs ++ [none])
  | .boolean vs => .boolean (vs ++ [none])
  | .string vs => .string (vs ++ [none])

/-- A typed value destined for one column of one row, after dictionary
interning: tag values are already symbols.  `TimeValue` of the WAL format maps
to `i64v`, as the time column is an I64 column. -/
inductive ColumnValue where
  | tagv (symbol : Nat)
  | i64v (v : Int)
  | f64v (bits : Nat)
  | boolv (v : Bool)
  | stringv (v : String)
  deriving Repr, DecidableEq

/-- Display name of a column variant, for `SchemaMismatch` errors. -/
def Column.variantName : Column → String
  | .tag _ => "tag"
  | .i64 _ => "i64"
  | .f64 _ => "f64"
  | .boolean _ => "bool"
  | .string _ => "string"

/-- Display name of a value variant, for `SchemaMismatch` errors. -/
def ColumnValue.variantName : ColumnValue → String
  | .tagv _ => "tag"
  | .i64v _ => "i64"
  | .f64v _ => "f64"
  | .boolv _ => "bool"
  | .stringv _ => "string"

/-- Modelled from the spec: `Column::push_*` extends the column by one value of
the matching variant and fails with `SchemaMismatch` if the column's variant
differs. -/
def Column.pushValue : Column → ColumnValue → Except Err Column
  | .tag vs, .tagv s => .ok (.tag (vs ++ [some s]))
  | .i64 vs, .i64v v => .ok (.i64 (vs ++ [some v]))
  | .f64 vs, .f64v v => .ok (.f64 (vs ++ [some v]))
  | .boolean vs, .boolv v => .ok (.boolean (vs ++ [some v]))
  | .string vs, .stringv v => .ok (.string (vs ++ [some v]))
  | c, v => .error (.schemaMismatch c.variantName v.variantName)

/-- Modelled from the spec: a fresh column of the variant fixed by the first
real value written to it, back-filled with `n` nulls. -/
def ColumnValue.newColumn (v : ColumnValue) (n : Nat) : Column :=
  match v with
  | .tagv _ => .tag (List.replicate n none)
  | .i64v _ => .i64 (List.replicate n none)
  | .f64v _ => .f64 (List.replicate n none)
  | .boolv _ => .boolean (List.replicate n none)
  | .stringv _ => .string (List.replicate n none)

/-- Modelled from the spec: a `Table`.  `columns` jointly represents the
source's `columns` vector and the `column_id_to_index` map, as an association
list from column-name symbol to column, in insertion order.  `id` is the
table-name symbol in the partition dictionary. -/
structure Table where
  id : Nat
  columns : List (Nat × Column)
  deriving Repr, DecidableEq

/-- Row count of a table: the length of any of its columns (all equal by the
table invariant); 0 for a table with no columns. -/
def Table.rowCount (t : Table) : Nat :=
  match t.columns with
  | [] => 0
  | (_, c) :: _ => c.len

/-- `TimestampPredicate` (`table.rs`): the partition-relative id of the time
column together with the queried range. -/
structure TimestampPredicate where
  timeColumnId : Nat
  range : TimestampRange
  deriving Repr, DecidableEq

/-- Modelled from the spec: `Table::column_i64` resolves a column id and
requires the I64 variant, failing with an internal error otherwise. -/
def Table.columnI64 (t : Table) (columnId : Nat) : Except Err (List (Option Int)) :=
  match t.columns.lookup columnId with
  | none => .error (.internalColumnNotFound columnId)
  | some (.i64 vs) => .ok vs
  | some _ => .error (.internalColumnTypeMismatch columnId)

/-- Modelled from the spec: `Table::matches_id_predicate` — true if the
argument is `None` or equals this table's name symbol. -/
def Table.matchesIdPredicate (t : Table) (symbol : Option Nat) : Bool :=
  match symbol with
  | none => true
  | some s => s == t.id

/-- Modelled from the spec: `Table::matches_timestamp_predicate` — `true` on
`None`; otherwise true iff any row's time falls in `[start, stop)`. -/
def Table.matchesTimestampPredicate (t : Table) :
    Option TimestampPredicate → Except Err Bool
  | none => .ok true
  | some pred => do
    let times ← t.columnI64 pred.timeColumnId
    .ok (times.any pred.range.containsOpt)

/-- Modelled from the spec: `Table::column_matches_timestamp_predicate` for a
tag column — true on `None`; otherwise true iff the column has at least one
non-null value whose row time is within the range. -/
def Table.columnMatchesTimestampPredicate (t : Table) (values : List (Option Nat)) :
    Option TimestampPredicate → Except Err Bool
  | none => .ok true
  | some pred => do
    let times ← t.columnI64 pred.timeColumnId
    .ok ((values.zip times).any fun (v, ts) => v.isSome && pred.range.containsOpt ts)

/-- Name of the distinguished timestamp column. -/
def timeColumnName : String := "time"

/-- Modelled from the spec: a `Partition` — a key, a dictionary, and a mapping
from table-name symbol to table (association list in insertion order). -/
structure Partition where
  key : String
  dict : Dictionary
  tables : List (Nat × Table)
  deriving Repr, DecidableEq

/-- Modelled from the spec: `Partition::should_write(key)` is `key ==
self.key`. -/
def Partition.shouldWrite (p : Partition) (key : String) : Bool :=
  p.key == key

/-- Modelled from the spec: `Partition::make_timestamp_predicate` resolves the
time column's id within this partition's dictionary; a `None` range yields
`None`. -/
def Partition.makeTimestampPredicate (p : Partition) :
    Option TimestampRange → Except Err (Option TimestampPredicate)
  | none => .ok none
  | some range =>
    match p.dict.lookupValue timeColumnName with
    | none => .error (.columnNameNotFoundInDictionary timeColumnName p.key)
    | some tid => .ok (some ⟨tid, range⟩)

/-- The databases' in-memory state: `Db` of `database.rs` (its name, the
partition list and whether a WAL is attached; the WAL task itself is external
I/O). -/
structure Db where
  name : String
  partitions : List Partition
  hasWal : Bool
  deriving Repr, DecidableEq

/-- Insertion into a sorted duplicate-free list of strings: the model of
`BTreeSet<String>::insert`. -/
def insertSorted (s : String) : List String → List String
  | [] => [s]
  | x :: xs =>
    if s < x then s :: x :: xs
    else if s == x then x :: xs
    else x :: insertSorted s xs

/-- Inner loop of `Db::table_names`: collect into the ordered set the names of
the tables of one partition that match the timestamp predicate. -/
def collectTableNames (p : Partition) (tsPred : Option TimestampPredicate) :
    List (Nat × Table) → List String → Except Err (List String)
  | [], acc => .ok acc
  | (symbol, t) :: rest, acc => do
    let m ← t.matchesTimestampPredicate tsPred
    if m then
      match p.dict.lookupId symbol with
      | none => .error (.tableIdNotFoundInDictionary symbol p.key)
      | some name =>
        collectTableNames p tsPred rest
          (if acc.contains name then acc else insertSorted name acc)
    else
      collectTableNames p tsPred rest acc

/-- Outer loop of `Db::table_names` over the partition list. -/
def tableNamesLoop (range : Option TimestampRange) :
    List Partition → List String → Except Err (List String)
  | [], acc => .ok acc
  | p :: ps, acc => do
    let tsPred ← p.makeTimestampPredicate range
    let acc ← collectTableNames p tsPred p.tables acc
    tableNamesLoop range ps acc

/-- `Db::table_names` (`database.rs`): iterate all partitions; for each table
matching the timestamp predicate, resolve its name in the partition dictionary
and insert it into an ordered set (`BTreeSet<String>`); the sorted set is the
result. -/
def Db.tableNames (db : Db) (range : Option TimestampRange) : Except Err (List String) :=
  tableNamesLoop range db.partitions []

/-- Binary operators of the external planner's expression language
(`datafusion::logical_plan::Operator`), restricted to the operators this
repository builds. -/
inductive Operator where
  | andOp
  | eqOp
  deriving Repr, DecidableEq

/-- Expressions of the external planner (`datafusion::logical_plan::Expr`),
restricted to the shapes this repository builds: column references, string
literals and binary expressions. -/
inductive Expr where
  | column (name : String)
  | literal (v : String)
  | binary (l : Expr) (op : Operator) (r : Expr)
  deriving Repr, DecidableEq

/-- `datafusion::logical_plan::binary_expr(l, op, r)`. -/
def binaryExpr (l : Expr) (op : Operator) (r : Expr) : Expr :=
  .binary l op r

/-- `delorean_storage::Predicate`: a general-purpose predicate expression. -/
structure Predicate where
  expr : Expr
  deriving Repr, DecidableEq

/-- Modelled from the spec: the logical plans produced by
`Table::tag_column_names_plan` and `Table::tag_values_plan`.  Plan execution
belongs to the external engine, so a plan is embedded as a descriptor of the
inputs it was built from. -/
inductive LogicalPlan where
  | tagColumnNamesPlan (tableId : Nat) (partitionKey : String)
      (predicate : Predicate) (tsPred : Option TimestampPredicate)
  | tagValuesPlan (columnName : String) (tableId : Nat) (partitionKey : String)
      (predicate : Predicate) (tsPred : Option TimestampPredicate)
  deriving Repr, DecidableEq

/-- `delorean_storage::exec::StringSetPlan`: either a materialized string set
or a list of logical plans yielding one when executed. -/
inductive StringSetPlan where
  | known (strings : List String)
  | plans (plans : List LogicalPlan)
  deriving Repr, DecidableEq

/-- Modelled from the spec: `Table::tag_column_names_plan`. -/
def Table.tagColumnNamesPlan (t : Table) (predicate : Predicate)
    (tsPred : Option TimestampPredicate) (p : Partition) : Except Err LogicalPlan :=
  .ok (.tagColumnNamesPlan t.id p.key predicate tsPred)

/-- Modelled from the spec: `Table::tag_values_plan`. -/
def Table.tagValuesPlan (t : Table) (columnName : String) (predicate : Predicate)
    (tsPred : Option TimestampPredicate) (p : Partition) : Except Err LogicalPlan :=
  .ok (.tagValuesPlan columnName t.id p.key predicate tsPred)

/-- The `Visitor` trait of `database.rs`: hooks with default no-op bodies.
Mutable visitor state is threaded explicitly as `σ`. -/
structure Visitor (σ : Type) where
  preVisitPartition : σ → Partition → Except Err σ := fun s _ => .ok s
  preVisitTable : σ → Table → Partition → Option TimestampPredicate → Except Err σ :=
    fun s _ _ _ => .ok s
  visitColumn : σ → Table → Nat → Column → Option TimestampPredicate → Except Err σ :=
    fun s _ _ _ _ => .ok s
  postVisitTable : σ → Table → Partition → Except Err σ := fun s _ _ => .ok s
  postVisitPartition : σ → Partition → Except Err σ := fun s _ => .ok s

/-- Column loop of `Db::visit_tables`: visit every column of a table in
`column_id_to_index` iteration order. -/
def visitColumnsLoop {σ : Type} (v : Visitor σ) (t : Table)
    (tsPred : Option TimestampPredicate) :
    List (Nat × Column) → σ → Except Err σ
  | [], s => .ok s
  | (cid, c) :: rest, s => do
    let s ← v.visitColumn s t cid c tsPred
    visitColumnsLoop v t tsPred rest s

/-- Table loop of `Db::visit_tables`: skip tables failing the optional
table-name symbol or the timestamp predicate (the name check short-circuits,
as in the source). -/
def visitTablesLoop {σ : Type} (v : Visitor σ) (p : Partition)
    (tableSymbol : Option Nat) (tsPred : Option TimestampPredicate) :
    List (Nat × Table) → σ → Except Err σ
  | [], s => .ok s
  | (_, t) :: rest, s =>
    if t.matchesIdPredicate tableSymbol then do
      let m ← t.matchesTimestampPredicate tsPred
      if m then do
        let s ← v.preVisitTable s t p tsPred
        let s ← visitColumnsLoop v t tsPred t.columns s
        let s ← v.postVisitTable s t p
        visitTablesLoop v p tableSymbol tsPred rest s
      else
        visitTablesLoop v p tableSymbol tsPred rest s
    else
      visitTablesLoop v p tableSymbol tsPred rest s

/-- Partition loop of `Db::visit_tables`: per partition, build the timestamp
predicate, resolve the optional table name in this partition's dictionary
(failing with `TableNameNotFoundInDictionary` if absent), then visit. -/
def visitPartitionsLoop {σ : Type} (v : Visitor σ) (table : Option String)
    (range : Option TimestampRange) :
    List Partition → σ → Except Err σ
  | [], s => .ok s
  | p :: ps, s => do
    let tsPred ← p.makeTimestampPredicate range
    let tableSymbol ←
      match table with
      | some name =>
        match p.dict.lookupValue name with
        | none => Except.error (Err.tableNameNotFoundInDictionary name p.key)
        | some sym => Except.ok (some sym)
      | none => Except.ok (none : Option Nat)
    let s ← v.preVisitPartition s p
    let s ← visitTablesLoop v p tableSymbol tsPred p.tables s
    let s ← v.postVisitPartition s p
    visitPartitionsLoop v table range ps s

/-- `Db::visit_tables` (`database.rs`). -/
def Db.visitTables {σ : Type} (db : Db) (table : Option String)
    (range : Option TimestampRange) (v : Visitor σ) (s : σ) : Except Err σ :=
  visitPartitionsLoop v table range db.partitions s

/-- Insertion into a sorted duplicate-free list of ids: the model of
`BTreeSet<u32>::insert`. -/
def insertSortedNat (n : Nat) : List Nat → List Nat
  | [] => [n]
  | x :: xs =>
    if n < x then n :: x :: xs
    else if n == x then x :: xs
    else x :: insertSortedNat n xs

/-- Materialize a set of dictionary ids to an ordered string set, as in the
`post_visit_partition` hooks (`mkErr` builds the claim-specific lookup-miss
error). -/
def materializeIds (p : Partition) (mkErr : Nat → String → Err) :
    List Nat → List String → Except Err (List String)
  | [], acc => .ok acc
  | id :: rest, acc =>
    match p.dict.lookupId id with
    | none => .error (mkErr id p.key)
    | some name =>
      materializeIds p mkErr rest (if acc.contains name then acc else insertSorted name acc)

/-- State of `NameVisitor`: the accumulated column names and the per-partition
scratch set of column ids. -/
structure NameVisitorState where
  columnNames : List String
  partitionColumnIds : List Nat
  deriving Repr, DecidableEq

/-- `NameVisitor` (`database.rs`): collects distinct tag-column names across
tables whose window is non-empty. -/
def nameVisitor : Visitor NameVisitorState where
  visitColumn := fun s t cid c tsPred =>
    match c with
    | .tag values => do
      let m ← t.columnMatchesTimestampPredicate values tsPred
      if m then
        .ok { s with partitionColumnIds := insertSortedNat cid s.partitionColumnIds }
      else
        .ok s
    | _ => .ok s
  preVisitPartition := fun s _ => .ok { s with partitionColumnIds := [] }
  postVisitPartition := fun s p => do
    let names ← materializeIds p .columnIdNotFoundInDictionary s.partitionColumnIds s.columnNames
    .ok { s with columnNames := names }

/-- `NamePredVisitor` (`database.rs`): one `tag_column_names_plan` per visited
table. -/
def namePredVisitor (predicate : Predicate) : Visitor (List LogicalPlan) where
  preVisitTable := fun plans t p tsPred => do
    let plan ← t.tagColumnNamesPlan predicate tsPred p
    .ok (plans ++ [plan])

/-- State of `ValueVisitor`: the per-partition id of the target column, the
per-partition scratch set of value ids, and the accumulated values. -/
structure ValueVisitorState where
  columnId : Option Nat
  partitionValueIds : List Nat
  columnValues : List String
  deriving Repr, DecidableEq

/-- `ValueVisitor` (`database.rs`): resolves the target column name per
partition, collects the distinct value ids of the matching tag column
(filtered by the timestamp predicate), and fails with
`UnsupportedColumnTypeForListingValues` on a non-tag column of that name. -/
def valueVisitor (columnName : String) : Visitor ValueVisitorState where
  preVisitPartition := fun s p =>
    match p.dict.lookupValue columnName with
    | none => .error (.columnNameNotFoundInDictionary columnName p.key)
    | some cid => .ok { s with partitionValueIds := [], columnId := some cid }
  visitColumn := fun s t cid c tsPred =>
    if some cid != s.columnId then
      .ok s
    else
      match c with
      | .tag values =>
        match tsPred with
        | none =>
          .ok { s with
                partitionValueIds :=
                  (values.filterMap id).foldl (fun ids v => insertSortedNat v ids)
                    s.partitionValueIds }
        | some pred => do
          let timeColumn ← t.columnI64 pred.timeColumnId
          let matching := (values.zip timeColumn).filterMap fun (valueId, ts) =>
            if pred.range.containsOpt ts then valueId else none
          .ok { s with
                partitionValueIds :=
                  matching.foldl (fun ids v => insertSortedNat v ids) s.partitionValueIds }
      | _ => .error (.unsupportedColumnTypeForListingValues columnName)
  postVisitPartition := fun s p => do
    let vals ← materializeIds p .columnValueIdNotFoundInDictionary s.partitionValueIds
      s.columnValues
    .ok { s with columnValues := vals }

/-- `ValuePredVisitor` (`database.rs`): one `tag_values_plan` per table that
passes the timestamp predicate. -/
def valuePredVisitor (columnName : String) (predicate : Predicate) :
    Visitor (List LogicalPlan) where
  preVisitTable := fun plans t p tsPred => do
    let m ← t.matchesTimestampPredicate tsPred
    if !m then
      .ok plans
    else do
      let plan ← t.tagValuesPlan columnName predicate tsPred p
      .ok (plans ++ [plan])

/-- `Db::tag_column_names` (`database.rs`): without a predicate, a
materialized set via `NameVisitor`; with one, a list of plans via
`NamePredVisitor`. -/
def Db.tagColumnNames (db : Db) (table : Option String) (range : Option TimestampRange)
    (predicate : Option Predicate) : Except Err StringSetPlan :=
  match predicate with
  | none => do
    let s ← db.visitTables table range nameVisitor ⟨[], []⟩
    .ok (.known s.columnNames)
  | some pred => do
    let plans ← db.visitTables table range (namePredVisitor pred) []
    .ok (.plans plans)

/-- `Db::column_values` (`database.rs`): without a predicate, a materialized
set via `ValueVisitor`; with one, a list of plans via `ValuePredVisitor`. -/
def Db.columnValues (db : Db) (columnName : String) (table : Option String)
    (range : Option TimestampRange) (predicate : Option Predicate) :
    Except Err StringSetPlan :=
  match predicate with
  | none => do
    let s ← db.visitTables table range (valueVisitor columnName) ⟨none, [], []⟩
    .ok (.known s.columnValues)
  | some pred => do
    let plans ← db.visitTables table range (valuePredVisitor columnName pred) []
    .ok (.plans plans)

/-- A record batch, embedded as the projected named columns (the Arrow array
representation itself is an external collaborator).  Tag columns keep their
symbol ids. -/
def RecordBatch := List (String × Column)
deriving instance Repr, DecidableEq for RecordBatch

/-- Modelled from the spec: `Table::table_to_arrow(columns_requested)` projects
the named columns in the requested order, failing with `MissingColumn` if a
requested name is absent; an empty request means all columns in column-id
order. -/
def Table.toArrow (t : Table) (p : Partition) (requested : List String) :
    Except Err RecordBatch :=
  if requested.isEmpty then
    t.columns.mapM fun (cid, c) =>
      match p.dict.lookupId cid with
      | none => .error (.columnIdNotFoundInDictionary cid p.key)
      | some name => .ok (name, c)
  else
    requested.mapM fun name =>
      match p.dict.lookupValue name with
      | none => .error (.missingColumn name)
      | some cid =>
        match t.columns.lookup cid with
        | none => .error (.missingColumn name)
        | some c => .ok (name, c)

/-- Modelled from the spec: `Partition::table_to_arrow` resolves the table name
in this partition's dictionary (`TableNameNotFoundInDictionary` if absent, as
exercised by the `recover_partial_entries` test), fetches the table
(`TableNotFoundInPartition` if absent) and projects it. -/
def Partition.tableToArrow (p : Partition) (tableName : String) (requested : List String) :
    Except Err RecordBatch :=
  match p.dict.lookupValue tableName with
  | none => .error (.tableNameNotFoundInDictionary tableName p.key)
  | some tid =>
    match p.tables.lookup tid with
    | none => .error (.tableNotFoundInPartition tid p.key)
    | some t => t.toArrow p requested

/-- The `collect::<Result<Vec<_>>>` of `Db::table_to_arrow`: one batch per
partition, stopping at the first failure. -/
def collectBatches (tableName : String) (requested : List String) :
    List Partition → Except Err (List RecordBatch)
  | [] => .ok []
  | p :: ps => do
    let b ← p.tableToArrow tableName requested
    let bs ← collectBatches tableName requested ps
    .ok (b :: bs)

/-- `Db::table_to_arrow` (`database.rs`): map `Partition::table_to_arrow` over
every partition and collect, so the first per-partition failure fails the
whole call. -/
def Db.tableToArrow (db : Db) (tableName : String) (requested : List String) :
    Except Err (List RecordBatch) :=
  collectBatches tableName requested db.partitions

/-- A SQL statement after parsing, restricted to the shapes `Db::query`
distinguishes: a SELECT with the list of table names in its FROM clause, or
any other statement (parsing itself is the external `sqlparser`). -/
inductive Statement where
  | selectFrom (fromTables : List String)
  | other (description : String)
  deriving Repr, DecidableEq

/-- The outcome of code that may also panic (e.g. index out of bounds), which
an `Except` value cannot express. -/
inductive POutcome (α : Type) where
  | ok (a : α)
  | err (e : Err)
  | panicked
  deriving Repr, DecidableEq

/-- `ArrowTable` (`database.rs`): a table materialized for the planner; the
schema is taken from the first record batch. -/
structure ArrowTable where
  name : String
  schema : List String
  data : List RecordBatch
  deriving Repr, DecidableEq

/-- Table-gathering loop of one SELECT in `Db::query`: for each table named in
FROM, materialize it with `table_to_arrow` and read `data[0]` for the schema —
an index that panics when the batch vector is empty. -/
def queryGatherFrom (db : Db) (names : List String) (acc : List ArrowTable) :
    POutcome (List ArrowTable) :=
  match names with
  | [] => .ok acc
  | name :: rest =>
    match db.tableToArrow name [] with
    | .error e => .err e
    | .ok data =>
      match data with
      | [] => .panicked
      | batch :: _ =>
        queryGatherFrom db rest (acc ++ [⟨name, batch.map (·.1), data⟩])

/-- Statement loop of `Db::query` (`database.rs`): SELECT statements gather
their FROM tables; any other statement fails with `UnsupportedStatement`.  The
subsequent planning and execution of the query belong to the external engine,
so the gathered (registered) tables are the model's result. -/
def Db.queryGather (db : Db) (queryText : String) (statements : List Statement)
    (acc : List ArrowTable) : POutcome (List ArrowTable) :=
  match statements with
  | [] => .ok acc
  | .selectFrom names :: rest =>
    match queryGatherFrom db names acc with
    | .ok acc => db.queryGather queryText rest acc
    | .err e => .err e
    | .panicked => .panicked
  | .other _ :: _ => .err (.unsupportedStatement queryText)

/-- A field value of the line protocol (`delorean_line_parser::FieldValue`);
floats are carried as IEEE-754 bit patterns, which nothing here inspects. -/
inductive FieldVal where
  | i64f (v : Int)
  | f64f (bits : Nat)
  | boolf (v : Bool)
  | stringf (v : String)
  deriving Repr, DecidableEq

/-- A parsed line of line protocol (`delorean_line_parser::ParsedLine`): a
measurement, tag set, field set, and optional timestamp. -/
structure Line where
  measurement : String
  tagSet : List (String × String)
  fieldSet : List (String × FieldVal)
  timestamp : Option Int
  deriving Repr, DecidableEq

/-- Zero-pad a natural number to two digits, as `chrono`'s `%m`/`%d`/`%H`. -/
def pad2 (n : Nat) : String :=
  if n < 10 then "0" ++ toString n else toString n

/-- Format a year as `chrono`'s `%Y` (at least four digits, `-` sign). -/
def formatYear (y : Int) : String :=
  let pad4 (n : Nat) : String :=
    if n < 10 then "000" ++ toString n
    else if n < 100 then "00" ++ toString n
    else if n < 1000 then "0" ++ toString n
    else toString n
  if y < 0 then "-" ++ pad4 (-y).toNat else pad4 y.toNat

/-- Convert a count of days since 1970-01-01 to the proleptic Gregorian civil
date, as `chrono` does for `Utc` (the standard era/day-of-era algorithm). -/
def civilFromDays (z : Int) : Int × Nat × Nat :=
  let z := z + 719468
  let era := z.fdiv 146097
  let doe := (z - era * 146097).toNat
  let yoe := (doe - doe / 1460 + doe / 36524 - doe / 146096) / 365
  let y := era * 400 + yoe
  let doy := doe - (365 * yoe + yoe / 4 - yoe / 100)
  let mp := (5 * doy + 2) / 153
  let d := doy - (153 * mp + 2) / 5 + 1
  let m := if mp < 10 then mp + 3 else mp - 9
  (if m ≤ 2 then y + 1 else y, m, d)

/-- `Utc.timestamp_nanos(ts).format("%Y-%m-%dT%H")`: split nanoseconds into
days and the hour of day (flooring division, so pre-epoch timestamps work) and
format the UTC civil date and hour. -/
def formatHourUtc (ts : Int) : String :=
  let secs := ts.fdiv 1000000000
  let days := secs.fdiv 86400
  let secondsOfDay := (secs - days * 86400).toNat
  let hour := secondsOfDay / 3600
  let (y, m, d) := civilFromDays days
  formatYear y ++ "-" ++ pad2 m ++ "-" ++ pad2 d ++ "T" ++ pad2 hour

/-- `partition_key` (`database.rs`): `line.timestamp.unwrap()` formatted as one
partition per UTC hour.  The `unwrap` panics when the line has no timestamp,
which the `Option` result records as `none`. -/
def partitionKey (line : Line) : Option String :=
  line.timestamp.map formatHourUtc

/-- A `FieldValue` of the WAL batch format (§6): a named value of one of the
six variants; `TimeValue` is required exactly once per row. -/
inductive WalValue where
  | tagValue (v : String)
  | i64Value (v : Int)
  | f64Value (bits : Nat)
  | boolValue (v : Bool)
  | stringValue (v : String)
  | timeValue (v : Int)
  deriving Repr, DecidableEq

/-- A `Row` of the WAL batch format: named field values. -/
def WalRow := List (String × WalValue)
deriving instance Repr, DecidableEq for WalRow

/-- A `TableWriteBatch` of the WAL batch format. -/
structure TableWriteBatch where
  table : String
  rows : List WalRow
  deriving Repr, DecidableEq

/-- A `WriteBufferEntry` of the WAL batch format: the rows destined for one
partition. -/
structure WriteBufferEntry where
  partitionKey : String
  tableBatches : List TableWriteBatch
  deriving Repr, DecidableEq

/-- Convert one parsed line to a WAL row: its tags, fields, and a `time` value
from the line's timestamp. -/
def lineToRow (line : Line) (ts : Int) : WalRow :=
  line.tagSet.map (fun (k, v) => (k, WalValue.tagValue v)) ++
    line.fieldSet.map (fun (k, v) =>
      (k, match v with
          | .i64f x => WalValue.i64Value x
          | .f64f x => WalValue.f64Value x
          | .boolf x => WalValue.boolValue x
          | .stringf x => WalValue.stringValue x)) ++
    [(timeColumnName, WalValue.timeValue ts)]

/-- Append a row for `line` to the batch of its measurement inside the entry
for `key`, creating entry and table batch on first reference. -/
def addRowToEntries (entries : List WriteBufferEntry) (key : String) (line : Line)
    (ts : Int) : List WriteBufferEntry :=
  let addToEntry (e : WriteBufferEntry) : WriteBufferEntry :=
    if e.tableBatches.any (·.table == line.measurement) then
      { e with tableBatches := e.tableBatches.map fun tb =>
          if tb.table == line.measurement then
            { tb with rows := tb.rows ++ [lineToRow line ts] }
          else tb }
    else
      { e with tableBatches := e.tableBatches ++ [⟨line.measurement, [lineToRow line ts]⟩] }
  if entries.any (·.partitionKey == key) then
    entries.map fun e => if e.partitionKey == key then addToEntry e else e
  else
    entries ++ [⟨key, [⟨line.measurement, [lineToRow line ts]⟩]⟩]

/-- Modelled from the spec: `split_lines_into_write_entry_partitions` groups
the lines by the key function into one WAL batch of per-partition entries.  The
key function calls `partition_key`, whose `unwrap` panics on a line without a
timestamp; the panic propagates as `none`. -/
def splitLines (keyFn : Line → Option String) :
    List Line → List WriteBufferEntry → Option (List WriteBufferEntry)
  | [], entries => some entries
  | line :: rest, entries =>
    match keyFn line, line.timestamp with
    | some key, some ts => splitLines keyFn rest (addRowToEntries entries key line ts)
    | _, _ => none

/-- Intern a WAL row: dictionary-encode column names and tag values, mapping
`TimeValue` to the I64 time column. -/
def internRow (d : Dictionary) (row : WalRow) : Dictionary × List (Nat × ColumnValue) :=
  row.foldl
    (fun (acc : Dictionary × List (Nat × ColumnValue)) (nv : String × WalValue) =>
      let (d, vals) := acc
      let (nid, d) := d.intern nv.1
      match nv.2 with
      | .tagValue s =>
        let (vid, d) := d.intern s
        (d, vals ++ [(nid, ColumnValue.tagv vid)])
      | .i64Value x => (d, vals ++ [(nid, ColumnValue.i64v x)])
      | .f64Value x => (d, vals ++ [(nid, ColumnValue.f64v x)])
      | .boolValue x => (d, vals ++ [(nid, ColumnValue.boolv x)])
      | .stringValue x => (d, vals ++ [(nid, ColumnValue.stringv x)])
      | .timeValue x => (d, vals ++ [(nid, ColumnValue.i64v x)]))
    (d, [])

/-- Replace the column stored under a symbol in a table's column list. -/
def setColumn (columns : List (Nat × Column)) (symbol : Nat) (c : Column) :
    List (Nat × Column) :=
  columns.map fun sc => if sc.1 == symbol then (symbol, c) else sc

/-- Apply the interned values of one row to a column list: push each value on
its column (type-checked), creating absent columns back-filled with `n` nulls. -/
def applyRowValues (n : Nat) :
    List (Nat × ColumnValue) → List (Nat × Column) → Except Err (List (Nat × Column))
  | [], columns => .ok columns
  | (symbol, v) :: rest, columns =>
    match columns.lookup symbol with
    | some c => do
      let c ← c.pushValue v
      applyRowValues n rest (setColumn columns symbol c)
    | none => do
      let c ← (v.newColumn n).pushValue v
      applyRowValues n rest (columns ++ [(symbol, c)])

/-- Modelled from the spec: `Table::append_row` — push the row's values
(type-checked; new columns are created back-filled with `row_count` nulls) and
append a null to every column the row does not mention, preserving the
equal-length invariant. -/
def Table.appendRow (t : Table) (n : Nat) (vals : List (Nat × ColumnValue)) :
    Except Err Table := do
  let columns ← applyRowValues n vals t.columns
  let columns := columns.map fun (s, c) =>
    if vals.any (·.1 == s) then (s, c) else (s, c.pushNull)
  .ok { t with columns := columns }

/-- Apply the rows of one table write batch to a table, threading the
dictionary. -/
def applyRows (d : Dictionary) (t : Table) : List WalRow → Except Err (Dictionary × Table)
  | [] => .ok (d, t)
  | row :: rest => do
    let (d, vals) := internRow d row
    let t ← t.appendRow t.rowCount vals
    applyRows d t rest

/-- Replace the table stored under a symbol in a partition's table list,
appending it if absent. -/
def setTable (tables : List (Nat × Table)) (symbol : Nat) (t : Table) :
    List (Nat × Table) :=
  if tables.any (·.1 == symbol) then
    tables.map fun st => if st.1 == symbol then (symbol, t) else st
  else
    tables ++ [(symbol, t)]

/-- Modelled from the spec: `Partition::write_entry` — for each table batch,
intern the table name, materialize the table if absent and append its rows. -/
def Partition.writeEntry (p : Partition) (entry : WriteBufferEntry) :
    Except Err Partition := do
  let step := fun (p : Partition) (tb : TableWriteBatch) => do
    let (tid, d) := p.dict.intern tb.table
    let t := match p.tables.lookup tid with
      | some t => t
      | none => { id := tid, columns := [] }
    let (d, t) ← applyRows d t tb.rows
    Except.ok { p with dict := d, tables := setTable p.tables tid t }
  entry.tableBatches.foldlM step p

/-- Apply one WAL entry to the partition list, as the entry loop of
`Db::write_lines`: write to the first partition whose key matches, or create a
new partition and push it. -/
def applyEntry (ps : List Partition) (entry : WriteBufferEntry) :
    Except Err (List Partition) :=
  if ps.any (·.shouldWrite entry.partitionKey) then
    ps.mapM fun p =>
      if p.shouldWrite entry.partitionKey then p.writeEntry entry else .ok p
  else do
    let p ← (Partition.mk entry.partitionKey ⟨[]⟩ []).writeEntry entry
    .ok (ps ++ [p])

/-- The in-memory application phase of `Db::write_lines`: apply the batch
entries in order; on failure the partitions already written are retained. -/
def applyEntries (ps : List Partition) :
    List WriteBufferEntry → Except Err Unit × List Partition
  | [] => (.ok (), ps)
  | e :: rest =>
    match applyEntry ps e with
    | .error err => (.error err, ps)
    | .ok ps' => applyEntries ps' rest

/-- `Db::write_lines` (`database.rs`): split the lines into one WAL batch of
per-partition entries, apply each entry to the in-memory partitions (creating
them as needed), and only then append the batch to the WAL when one is
attached.  `walOk` is the outcome of the external `write_and_sync`; `none`
models the panic of `partition_key` on a missing timestamp. -/
def Db.writeLines (db : Db) (lines : List Line) (walOk : Bool) :
    Option (Except Err Unit × Db) :=
  match splitLines partitionKey lines [] with
  | none => none
  | some entries =>
    match applyEntries db.partitions entries with
    | (.error e, ps) => some (.error e, { db with partitions := ps })
    | (.ok _, ps) =>
      if db.hasWal then
        if walOk then some (.ok (), { db with partitions := ps })
        else some (.error (.writingWal db.name), { db with partitions := ps })
      else some (.ok (), { db with partitions := ps })

/-- `AndExprBuilder` (`query/src/util.rs`): builds the conjunction of the
appended expressions. -/
structure AndExprBuilder where
  curExpr : Option Expr := none
  deriving Repr, DecidableEq

/-- `AndExprBuilder::append_expr`: AND the new expression onto the chain. -/
def AndExprBuilder.appendExpr (b : AndExprBuilder) (newExpr : Expr) : AndExprBuilder :=
  let curExpr :=
    match b.curExpr with
    | some cur => binaryExpr cur .andOp newExpr
    | none => newExpr
  ⟨some curExpr⟩

/-- `AndExprBuilder::append_opt`: append, or leave the builder unchanged on
`None`. -/
def AndExprBuilder.appendOpt (b : AndExprBuilder) : Option Expr → AndExprBuilder
  | none => b
  | some newExpr => b.appendExpr newExpr

/-- `AndExprBuilder::append_opt_ref`: as `append_opt`, cloning the referenced
expression. -/
def AndExprBuilder.appendOptRef (b : AndExprBuilder) : Option Expr → AndExprBuilder
  | none => b
  | some newExpr => b.appendExpr newExpr

/-- `AndExprBuilder::build`: the built expression, `None` for a fresh
builder. -/
def AndExprBuilder.build (b : AndExprBuilder) : Option Expr :=
  b.curExpr

/-- Append each expression of a list in order. -/
def AndExprBuilder.appendAll (b : AndExprBuilder) (es : List Expr) : AndExprBuilder :=
  es.foldl AndExprBuilder.appendExpr b

/-- One read operation of the in-process API surface. -/
inductive ReadOp where
  | tableNamesOp (range : Option TimestampRange)
  | tagColumnNamesOp (table : Option String) (range : Option TimestampRange)
      (predicate : Option Predicate)
  | columnValuesOp (columnName : String) (table : Option String)
      (range : Option TimestampRange) (predicate : Option Predicate)
  | tableToArrowOp (tableName : String) (columns : List String)
  deriving Repr, DecidableEq

/-- The result value of a read operation. -/
inductive ReadOut where
  | names (names : List String)
  | stringSet (s : StringSetPlan)
  | batches (bs : List RecordBatch)
  deriving Repr, DecidableEq

/-- Run one read operation against the database.  All four take `&self` in the
source, so the state handed to the next operation is returned alongside the
result. -/
def Db.runRead (db : Db) : ReadOp → (Except Err ReadOut) × Db
  | .tableNamesOp range => ((db.tableNames range).map .names, db)
  | .tagColumnNamesOp table range predicate =>
    ((db.tagColumnNames table range predicate).map .stringSet, db)
  | .columnValuesOp columnName table range predicate =>
    ((db.columnValues columnName table range predicate).map .stringSet, db)
  | .tableToArrowOp tableName columns =>
    ((db.tableToArrow tableName columns).map .batches, db)

/-- Run a sequence of read operations, threading the database state. -/
def Db.runReads (db : Db) : List ReadOp → Db
  | [] => db
  | op :: rest => ((db.runRead op).2).runReads rest

/-- Whether a column is a Tag column. -/
def Column.isTag : Column → Bool
  | .tag _ => true
  | _ => false

/-- Whether an optional column is present with the I64 variant. -/
def isI64 : Option Column → Bool
  | some (.i64 _) => true
  | _ => false

/-- Spec invariant 2 for one column: every symbol id a tag column stores
resolves in the partition dictionary. -/
def Column.symbolsResolvable (d : Dictionary) : Column → Bool
  | .tag vs => vs.all fun o =>
    match o with
    | none => true
    | some id => (d.lookupId id).isSome
  | _ => true

/-- Spec invariant 2 for a partition: every table-name symbol, column-name
symbol, and tag-value symbol resolves in the partition dictionary. -/
def Partition.idsResolvable (p : Partition) : Bool :=
  p.tables.all fun st =>
    (p.dict.lookupId st.1).isSome &&
      st.2.columns.all fun cc =>
        (p.dict.lookupId cc.1).isSome && cc.2.symbolsResolvable p.dict

/-- Well-formedness of a partition as the write path maintains it: the time
column name is interned, every table-name symbol resolves, and every table
holds the time column with the I64 variant.  Extends `idsResolvable`. -/
def wfPartition (p : Partition) : Bool :=
  match p.dict.lookupValue timeColumnName with
  | none => false
  | some tid =>
    p.idsResolvable &&
      p.tables.all fun st => isI64 (st.2.columns.lookup tid)

/-- The claim-side reading of the timestamp predicate: the table has at least
one row whose time (its entry in the partition's time column) lies in the
half-open range. -/
def tableHasRowInRange (p : Partition) (t : Table) (r : TimestampRange) : Bool :=
  match p.dict.lookupValue timeColumnName with
  | none => false
  | some tid =>
    match t.columns.lookup tid with
    | some (.i64 vs) => vs.any r.containsOpt
    | _ => false

/-- Every occurrence of the named column in a partition is a Tag column (and
the name is interned). -/
def Partition.columnAllTag (p : Partition) (columnName : String) : Bool :=
  match p.dict.lookupValue columnName with
  | none => false
  | some cid =>
    p.tables.all fun st => st.2.columns.all fun cc => cc.1 != cid || cc.2.isTag

/-- Concrete partition: table `cpu` (symbol 0) with a `region` tag column and
times 100, 150. -/
def exPartition : Partition :=
  ⟨"1970-01-01T00", ⟨["cpu", "region", "west", "time"]⟩,
    [(0, ⟨0, [(1, .tag [some 2, some 2]), (3, .i64 [some 100, some 150])]⟩)]⟩

/-- Concrete single-partition database around `exPartition`. -/
def exDb : Db := ⟨"mydb", [exPartition], true⟩

/-- Concrete partition whose dictionary does not intern `cpu`: table `mem`
(symbol 0) with a time column at 200. -/
def exPartitionMem : Partition :=
  ⟨"1970-01-01T01", ⟨["mem", "time"]⟩, [(0, ⟨0, [(1, .i64 [some 200])]⟩)]⟩

/-- Concrete database whose first partition contains `cpu` and whose second
does not intern it. -/
def exDbSplit : Db := ⟨"mydb", [exPartition, exPartitionMem], true⟩

/-- Concrete partition holding table `cpu` (symbol 0) with a time column and a
non-tag F64 column `user` (symbol 2), single row at time 100. -/
def exPartitionF64 : Partition :=
  ⟨"1970-01-01T00", ⟨["cpu", "time", "user"]⟩,
    [(0, ⟨0, [(1, .i64 [some 100]), (2, .f64 [some 42])]⟩)]⟩

/-- Concrete single-partition database around `exPartitionF64`. -/
def exDbF64 : Db := ⟨"db", [exPartitionF64], true⟩

/-- Concrete empty database. -/
def exDbEmpty : Db := ⟨"mydb", [], true⟩

/-- Concrete partition that interns `region` but not `cpu`: table `mem`
(symbol 0) with only a time column. -/
def exPartitionMemR : Partition :=
  ⟨"1970-01-01T01", ⟨["mem", "time", "region"]⟩, [(0, ⟨0, [(1, .i64 [some 200])]⟩)]⟩

/-- Concrete database whose first partition contains `cpu` and whose second
interns `region` but not `cpu`. -/
def exDbSplitR : Db := ⟨"mydb", [exPartition, exPartitionMemR], true⟩

/-- Concrete line `cpu,region=west user=23.2 10` (the float value carried as
bits). -/
def exLine : Line := ⟨"cpu", [("region", "west")], [("user", .f64f 23)], some 10⟩

/-- Concrete line sharing `exLine`'s timestamp with different content. -/
def exLineSameTs : Line := ⟨"disk", [("host", "a")], [("bytes", .i64f 99)], some 10⟩

/-- Concrete line with no timestamp. -/
def exLineNoTs : Line := ⟨"cpu", [], [("user", .f64f 1)], none⟩

/-- Concrete line with the first S7 boundary timestamp. -/
def exLineS7a : Line := ⟨"cpu", [], [("user", .f64f 232)], some 1600107710000000000⟩

/-- Concrete line sharing `exLineS7a`'s timestamp with different content. -/
def exLineS7a' : Line := ⟨"mem", [("region", "east")], [("val", .i64f 3)], some 1600107710000000000⟩

/-- Concrete line with the second S7 boundary timestamp. -/
def exLineS7b : Line := ⟨"disk", [], [("bytes", .i64f 23432323)], some 1600136510000000000⟩

/-- The state `exDb0.writeLines [exLine] true` leaves behind, for the write
path witness. -/
def exDbAfterWrite : Db :=
  match exDbEmpty.writeLines [exLine] true with
  | some (_, d) => d
  | none => exDbEmpty

theorem appendAll_some (a : Expr) (es : List Expr) :
    (AndExprBuilder.mk (some a)).appendAll es =
      ⟨some (es.foldl (fun acc x => binaryExpr acc .andOp x) a)⟩ := by
  induction es generalizing a with
  | nil => rfl
  | cons e es ih =>
    show ((AndExprBuilder.mk (some a)).appendExpr e).appendAll es = _
    rw [List.foldl_cons]
    exact ih (binaryExpr a .andOp e)

/-- C10: `AndExprBuilder` builds the left-associated AND of exactly the
expressions appended: a fresh builder's `build()` is `None`; `append_opt(None)`
and `append_opt_ref(None)` are identities; after appending `e1, …, en`
(`n ≥ 1`) in order, `build()` is `Some(((e1 AND e2) AND …) AND en)`. -/
theorem andExprBuilder_conjunction :
    ((AndExprBuilder.mk none).build = none) ∧
    (∀ b : AndExprBuilder, b.appendOpt none = b ∧ b.appendOptRef none = b) ∧
    (∀ (e : Expr) (es : List Expr),
      ((AndExprBuilder.mk none).appendAll (e :: es)).build =
        some (es.foldl (fun acc x => binaryExpr acc .andOp x) e)) := by
  refine ⟨rfl, fun b => ⟨rfl, rfl⟩, fun e es => ?_⟩
  show (((AndExprBuilder.mk none).appendExpr e).appendAll es).build = _
  rw [show (AndExprBuilder.mk none).appendExpr e = ⟨some e⟩ from rfl, appendAll_some]
  rfl

/-- C7: read operations mutate nothing — after any sequence of
`table_names`, `tag_column_names`, `column_values` and `table_to_arrow` calls
the database state (partitions with their dictionaries, tables and columns) is
unchanged; in the embedding every read hands back the state it was given. -/
theorem readOps_preserve_state (db : Db) (ops : List ReadOp) : db.runReads ops = db := by
  induction ops with
  | nil => rfl
  | cons op rest ih =>
    show ((db.runRead op).2).runReads rest = db
    have h2 : (db.runRead op).2 = db := by cases op <;> rfl
    rw [h2]
    exact ih

/-- C9: on a database with no partitions, `table_to_arrow` returns an empty
vector, and `query` of a SELECT naming a table then indexes `data[0]`, which
panics instead of returning an error value. -/
theorem query_empty_partitions_panics (db : Db) (queryText name : String)
    (h : db.partitions = []) :
    db.tableToArrow name [] = .ok [] ∧
    db.queryGather queryText [.selectFrom [name]] [] = .panicked := by
  have hbase : db.tableToArrow name [] = .ok [] := by
    show collectBatches name [] db.partitions = .ok []
    rw [h]
    rfl
  refine ⟨hbase, ?_⟩
  show Db.queryGather db queryText [.selectFrom [name]] [] = .panicked
  unfold Db.queryGather queryGatherFrom
  rw [hbase]

/-- Witness for C9 at a concrete empty database. -/
theorem query_empty_partitions_panics_witness :
    exDbEmpty.tableToArrow "cpu" [] = .ok [] ∧
    exDbEmpty.queryGather "select region from cpu" [.selectFrom ["cpu"]] [] = .panicked :=
  query_empty_partitions_panics exDbEmpty "select region from cpu" "cpu" rfl

/-- C6: `partition_key` depends only on the line's timestamp, formatted in UTC
as `%Y-%m-%dT%H`; the two S7 boundary timestamps land in the stated distinct
hourly partitions. -/
theorem partitionKey_utc_hour :
    (∀ l1 l2 : Line, l1.timestamp = l2.timestamp → partitionKey l1 = partitionKey l2) ∧
    partitionKey exLineS7a = some "2020-09-14T18" ∧
    partitionKey exLineS7b = some "2020-09-15T02" := by
  refine ⟨fun l1 l2 h => ?_, by decide, by decide⟩
  unfold partitionKey
  rw [h]

/-- Witness for C6: two lines with equal timestamps share their key, evaluated
at the first S7 timestamp. -/
theorem partitionKey_utc_hour_witness :
    partitionKey exLineS7a = partitionKey exLineS7a' ∧
    partitionKey exLineS7a = some "2020-09-14T18" :=
  ⟨partitionKey_utc_hour.1 exLineS7a exLineS7a' rfl, partitionKey_utc_hour.2.1⟩

/-- C5 (code behavior at the failing input): a write containing a row without
a timestamp does not produce a `BadInput`-style error — `partition_key`
unwraps the missing timestamp and panics, so `write_lines` has no result at
all (`none` in the embedding), for every database and WAL outcome. -/
theorem writeLines_missing_timestamp_panics (db : Db) (walOk : Bool) :
    partitionKey exLineNoTs = none ∧ db.writeLines [exLineNoTs] walOk = none :=
  ⟨rfl, rfl⟩

/-- C1: if the in-memory application phase of `write_lines` succeeds and the
subsequent WAL append fails, the error is surfaced to the caller while the
partitions retain exactly the state a successful write would have left —
the mutation happens before the append and is not rolled back. -/
theorem writeLines_applies_before_wal (db : Db) (lines : List Line) (db' : Db)
    (hwal : db.hasWal = true)
    (h : db.writeLines lines true = some (.ok (), db')) :
    db.writeLines lines false = some (.error (.writingWal db.name), db') := by
  cases hsplit : splitLines partitionKey lines [] with
  | none => simp [Db.writeLines, hsplit] at h
  | some entries =>
    cases happ : applyEntries db.partitions entries with
    | mk res ps =>
      cases res with
      | error e => simp [Db.writeLines, hsplit, happ] at h
      | ok u =>
        simp only [Db.writeLines, hsplit, happ, hwal] at h ⊢
        simp only [Option.some.injEq, Prod.mk.injEq, true_and, reduceIte,
          Bool.false_eq_true, if_false] at h ⊢
        exact h

/-- Witness for C1: a concrete write into an empty database, with the WAL
append failing. -/
theorem writeLines_applies_before_wal_witness :
    exDbEmpty.writeLines [exLine] false =
      some (.error (.writingWal "mydb"), exDbAfterWrite) :=
  writeLines_applies_before_wal exDbEmpty [exLine] exDbAfterWrite rfl (by decide)

theorem collectBatches_ok_length (name : String) (cols : List String) :
    ∀ (ps : List Partition) (bs : List RecordBatch),
      collectBatches name cols ps = .ok bs → bs.length = ps.length := by
  intro ps
  induction ps with
  | nil => intro bs h; cases h; rfl
  | cons p rest ih =>
    intro bs h
    unfold collectBatches at h
    cases hp : p.tableToArrow name cols with
    | error e => rw [hp] at h; cases h
    | ok b =>
      rw [hp] at h
      cases hr : collectBatches name cols rest with
      | error e => rw [hr] at h; cases h
      | ok bs' =>
        rw [hr] at h
        cases h
        simp [ih bs' hr]

theorem collectBatches_error (name : String) (cols : List String) :
    ∀ (ps : List Partition) (p : Partition), p ∈ ps →
      (∃ e, p.tableToArrow name cols = .error e) →
      ∃ e, collectBatches name cols ps = .error e := by
  intro ps
  induction ps with
  | nil => intro p hp; cases hp
  | cons q rest ih =>
    intro p hp ⟨e, he⟩
    unfold collectBatches
    cases hq : q.tableToArrow name cols with
    | error e' => exact ⟨e', rfl⟩
    | ok b =>
      rcases List.mem_cons.mp hp with rfl | hmem
      · rw [hq] at he; cases he
      · rcases ih p hmem ⟨e, he⟩ with ⟨e', he'⟩
        rw [he']
        exact ⟨e', rfl⟩

/-- C3 (amended): `table_to_arrow` returns one batch per partition — all
partitions, not only those containing the table — and fails as soon as any
partition fails (in particular when any partition's dictionary does not know
the table name). -/
theorem tableToArrow_one_batch_per_partition (db : Db) (name : String) (cols : List String) :
    (∀ bs, db.tableToArrow name cols = .ok bs → bs.length = db.partitions.length) ∧
    ((∃ p ∈ db.partitions, ∃ e, p.tableToArrow name cols = .error e) →
      ∃ e, db.tableToArrow name cols = .error e) :=
  ⟨fun bs h => collectBatches_ok_length name cols db.partitions bs h,
   fun ⟨p, hp, he⟩ => collectBatches_error name cols db.partitions p hp he⟩

/-- Counterexample to C3 as stated: in `exDbSplit` the first partition does
contain table `cpu` (its projection succeeds), yet the whole call fails with
`TableNameNotFoundInDictionary` because the second partition's dictionary does
not intern the name — the table is not unknown in every partition. -/
theorem tableToArrow_split_counterexample :
    exDbSplit.tableToArrow "cpu" [] =
      .error (.tableNameNotFoundInDictionary "cpu" "1970-01-01T01") ∧
    exPartition ∈ exDbSplit.partitions ∧
    exPartition.tableToArrow "cpu" [] =
      .ok [("region", .tag [some 2, some 2]), ("time", .i64 [some 100, some 150])] := by
  refine ⟨by decide, ?_, by decide⟩
  simp [exDbSplit, exDb]

theorem exc_bind_ok {ε α β : Type} (a : α) (f : α → Except ε β) :
    (Except.ok (ε := ε) a >>= f) = f a := rfl

theorem exc_bind_error {ε α β : Type} (e : ε) (f : α → Except ε β) :
    (Except.error (α := α) e >>= f) = .error (α := β) e := rfl

theorem insertSorted_mem (y : String) :
    ∀ (l : List String) (x : String), x ∈ insertSorted y l ↔ x = y ∨ x ∈ l := by
  intro l
  induction l with
  | nil => intro x; simp [insertSorted]
  | cons a as ih =>
    intro x
    unfold insertSorted
    split_ifs with h1 h2
    · simp
    · have : y = a := by simpa using h2
      subst this
      simp only [List.mem_cons]
      constructor
      · intro h; exact Or.inr h
      · rintro (rfl | h)
        · exact Or.inl rfl
        · exact h
    · simp only [List.mem_cons, ih]
      tauto

theorem isI64_iff (o : Option Column) : isI64 o = true ↔ ∃ vs, o = some (.i64 vs) := by
  cases o with
  | none => simp [isI64]
  | some c => cases c <;> simp [isI64]

theorem collectTableNames_spec (p : Partition) (tid : Nat) (r : TimestampRange)
    (htid : p.dict.lookupValue timeColumnName = some tid) :
    ∀ tbls : List (Nat × Table),
      (tbls.all fun st => (p.dict.lookupId st.1).isSome && isI64 (st.2.columns.lookup tid)) = true →
      ∀ acc : List String,
        ∃ out, collectTableNames p (some ⟨tid, r⟩) tbls acc = .ok out ∧
          ∀ name, name ∈ out ↔ name ∈ acc ∨
            ∃ st ∈ tbls, p.dict.lookupId st.1 = some name ∧
              tableHasRowInRange p st.2 r = true := by
  intro tbls
  induction tbls with
  | nil =>
    intro _ acc
    exact ⟨acc, rfl, by simp⟩
  | cons st rest ih =>
    intro hall acc
    obtain ⟨sym, t⟩ := st
    rw [List.all_cons, Bool.and_eq_true] at hall
    obtain ⟨hhead, hrest⟩ := hall
    rw [Bool.and_eq_true] at hhead
    obtain ⟨name0, hname0⟩ := Option.isSome_iff_exists.mp hhead.1
    obtain ⟨vs, hvs⟩ := (isI64_iff _).mp hhead.2
    have hm : t.matchesTimestampPredicate (some ⟨tid, r⟩) = .ok (vs.any r.containsOpt) := by
      simp only [Table.matchesTimestampPredicate, Table.columnI64, hvs, exc_bind_ok]
    have hrow : tableHasRowInRange p t r = vs.any r.containsOpt := by
      simp only [tableHasRowInRange, htid, hvs]
    cases hb : vs.any r.containsOpt with
    | true =>
      obtain ⟨out, hout, hiff⟩ :=
        ih hrest (if acc.contains name0 then acc else insertSorted name0 acc)
      refine ⟨out, ?_, ?_⟩
      · simp only [collectTableNames, hm, exc_bind_ok, hb, if_true, hname0]
        exact hout
      · intro name
        rw [hiff]
        have hacc : (name ∈ if acc.contains name0 then acc else insertSorted name0 acc) ↔
            name = name0 ∨ name ∈ acc := by
          split_ifs with hc
          · have hc' : name0 ∈ acc := by simpa using hc
            constructor
            · exact Or.inr
            · rintro (rfl | h)
              · exact hc'
              · exact h
          · exact insertSorted_mem name0 acc name
        rw [hacc]
        simp only [List.mem_cons]
        constructor
        · rintro ((rfl | h) | ⟨st, hst, h1, h2⟩)
          · exact Or.inr ⟨(sym, t), Or.inl rfl, by rw [hname0], by rw [hrow, hb]⟩
          · exact Or.inl h
          · exact Or.inr ⟨st, Or.inr hst, h1, h2⟩
        · rintro (h | ⟨st, (rfl | hst), h1, h2⟩)
          · exact Or.inl (Or.inr h)
          · rw [hname0] at h1
            exact Or.inl (Or.inl (Option.some.inj h1).symm)
          · exact Or.inr ⟨st, hst, h1, h2⟩
    | false =>
      obtain ⟨out, hout, hiff⟩ := ih hrest acc
      refine ⟨out, ?_, ?_⟩
      · simp only [collectTableNames, hm, exc_bind_ok, hb, Bool.false_eq_true, if_false, hout]
      · intro name
        rw [hiff]
        simp only [List.mem_cons]
        constructor
        · rintro (h | ⟨st, hst, h1, h2⟩)
          · exact Or.inl h
          · exact Or.inr ⟨st, Or.inr hst, h1, h2⟩
        · rintro (h | ⟨st, (rfl | hst), h1, h2⟩)
          · exact Or.inl h
          · rw [hrow, hb] at h2
            cases h2
          · exact Or.inr ⟨st, hst, h1, h2⟩

theorem tableNamesLoop_spec (r : TimestampRange) :
    ∀ ps : List Partition, ps.all wfPartition = true →
      ∀ acc : List String,
        ∃ out, tableNamesLoop (some r) ps acc = .ok out ∧
          ∀ name, name ∈ out ↔ name ∈ acc ∨
            ∃ p ∈ ps, ∃ st ∈ p.tables, p.dict.lookupId st.1 = some name ∧
              tableHasRowInRange p st.2 r = true := by
  intro ps
  induction ps with
  | nil =>
    intro _ acc
    exact ⟨acc, rfl, by simp⟩
  | cons p rest ih =>
    intro hall acc
    rw [List.all_cons, Bool.and_eq_true] at hall
    obtain ⟨hp, hrest⟩ := hall
    unfold wfPartition at hp
    cases htid : p.dict.lookupValue timeColumnName with
    | none => rw [htid] at hp; cases hp
    | some tid =>
      rw [htid, Bool.and_eq_true] at hp
      have hall' : (p.tables.all fun st =>
          (p.dict.lookupId st.1).isSome && isI64 (st.2.columns.lookup tid)) = true := by
        rw [List.all_eq_true] at *
        intro st hst
        rw [Bool.and_eq_true]
        have h1 := hp.1
        rw [Partition.idsResolvable, List.all_eq_true] at h1
        have := h1 st hst
        rw [Bool.and_eq_true] at this
        exact ⟨this.1, hp.2 st hst⟩
      have hmk : p.makeTimestampPredicate (some r) = .ok (some ⟨tid, r⟩) := by
        simp only [Partition.makeTimestampPredicate, htid]
      obtain ⟨acc1, hacc1, hiff1⟩ := collectTableNames_spec p tid r htid p.tables hall' acc
      obtain ⟨out, hout, hiff2⟩ := ih hrest acc1
      refine ⟨out, ?_, ?_⟩
      · simp only [tableNamesLoop, hmk, exc_bind_ok, hacc1, hout]
      · intro name
        rw [hiff2, hiff1]
        simp only [List.mem_cons]
        constructor
        · rintro ((h | ⟨st, hst, h1, h2⟩) | ⟨q, hq, hin⟩)
          · exact Or.inl h
          · exact Or.inr ⟨p, Or.inl rfl, st, hst, h1, h2⟩
          · exact Or.inr ⟨q, Or.inr hq, hin⟩
        · rintro (h | ⟨q, (rfl | hq), hin⟩)
          · exact Or.inl (Or.inl h)
          · exact Or.inl (Or.inr hin)
          · exact Or.inr ⟨q, hq, hin⟩

/-- C2: for every well-formed database state and timestamp range `[a, b)`, a
table name appears in `table_names(Some([a,b)))` iff some partition contains a
table of that name (its symbol resolving to the name in that partition's
dictionary) with at least one row whose time `t` satisfies `a ≤ t < b`. -/
theorem tableNames_range_iff (db : Db) (a b : Int)
    (hwf : db.partitions.all wfPartition = true) :
    ∃ s, db.tableNames (some ⟨a, b⟩) = .ok s ∧
      ∀ name, name ∈ s ↔ ∃ p ∈ db.partitions, ∃ st ∈ p.tables,
        p.dict.lookupId st.1 = some name ∧
        tableHasRowInRange p st.2 ⟨a, b⟩ = true := by
  obtain ⟨out, hout, hiff⟩ := tableNamesLoop_spec ⟨a, b⟩ db.partitions hwf []
  refine ⟨out, hout, fun name => ?_⟩
  rw [hiff]
  simp

/-- Witness for C2 at the concrete one-partition database, range `[0, 201)`. -/
theorem tableNames_range_iff_witness :
    exDb.partitions.all wfPartition = true ∧
    ∃ s, exDb.tableNames (some ⟨0, 201⟩) = .ok s ∧
      ∀ name, name ∈ s ↔ ∃ p ∈ exDb.partitions, ∃ st ∈ p.tables,
        p.dict.lookupId st.1 = some name ∧
        tableHasRowInRange p st.2 ⟨0, 201⟩ = true :=
  ⟨by decide, tableNames_range_iff exDb 0 201 (by decide)⟩

theorem insertSortedNat_mem (n : Nat) :
    ∀ (l : List Nat) (x : Nat), x ∈ insertSortedNat n l → x = n ∨ x ∈ l := by
  intro l
  induction l with
  | nil => intro x h; simpa [insertSortedNat] using h
  | cons a as ih =>
    intro x h
    unfold insertSortedNat at h
    split_ifs at h with h1 h2
    · simpa using h
    · exact Or.inr h
    · rcases List.mem_cons.mp h with rfl | h3
      · exact Or.inr (List.mem_cons_self _ _)
      · rcases ih x h3 with h4 | h4
        · exact Or.inl h4
        · exact Or.inr (List.mem_cons_of_mem _ h4)

theorem foldl_insertSortedNat_mem :
    ∀ (vals l : List Nat) (x : Nat),
      x ∈ vals.foldl (fun ids v => insertSortedNat v ids) l → x ∈ l ∨ x ∈ vals := by
  intro vals
  induction vals with
  | nil => intro l x h; exact Or.inl h
  | cons v vs ih =>
    intro l x h
    rw [List.foldl_cons] at h
    rcases ih (insertSortedNat v l) x h with h1 | h1
    · rcases insertSortedNat_mem v l x h1 with rfl | h2
      · exact Or.inr (List.mem_cons_self _ _)
      · exact Or.inl h2
    · exact Or.inr (List.mem_cons_of_mem _ h1)

theorem materializeIds_ok (p : Partition) (mkErr : Nat → String → Err) :
    ∀ ids : List Nat, (∀ i ∈ ids, (p.dict.lookupId i).isSome = true) →
      ∀ acc, ∃ out, materializeIds p mkErr ids acc = .ok out := by
  intro ids
  induction ids with
  | nil => intro _ acc; exact ⟨acc, rfl⟩
  | cons i is ih =>
    intro h acc
    obtain ⟨name, hname⟩ := Option.isSome_iff_exists.mp (h i (List.mem_cons_self _ _))
    obtain ⟨out, hout⟩ := ih (fun j hj => h j (List.mem_cons_of_mem _ hj))
      (if acc.contains name then acc else insertSorted name acc)
    refine ⟨out, ?_⟩
    simp only [materializeIds, hname]
    exact hout

theorem nameVisitor_columns_ok (t : Table) (R : Nat → Prop) :
    ∀ (cols : List (Nat × Column)) (s : NameVisitorState),
      (∀ i ∈ s.partitionColumnIds, R i) → (∀ cc ∈ cols, R cc.1) →
      ∃ ids, visitColumnsLoop nameVisitor t none cols s = .ok ⟨s.columnNames, ids⟩ ∧
        ∀ i ∈ ids, R i := by
  intro cols
  induction cols with
  | nil =>
    intro s hs _
    exact ⟨s.partitionColumnIds, rfl, hs⟩
  | cons cc rest ih =>
    intro s hs hcols
    obtain ⟨cid, c⟩ := cc
    obtain ⟨names, pids⟩ := s
    have hrest : ∀ cc ∈ rest, R cc.1 := fun cc h => hcols cc (List.mem_cons_of_mem _ h)
    cases c with
    | tag values =>
      have hstep : nameVisitor.visitColumn ⟨names, pids⟩ t cid (.tag values) none =
          .ok ⟨names, insertSortedNat cid pids⟩ := rfl
      obtain ⟨ids, hloop, hids⟩ := ih ⟨names, insertSortedNat cid pids⟩
        (fun i hi => (insertSortedNat_mem cid pids i hi).elim
          (fun he => he ▸ hcols _ (List.mem_cons_self _ _))
          (fun hin => hs i hin))
        hrest
      refine ⟨ids, ?_, hids⟩
      simp only [visitColumnsLoop, hstep, exc_bind_ok]
      exact hloop
    | i64 values =>
      obtain ⟨ids, hloop, hids⟩ := ih ⟨names, pids⟩ hs hrest
      exact ⟨ids, hloop, hids⟩
    | f64 values =>
      obtain ⟨ids, hloop, hids⟩ := ih ⟨names, pids⟩ hs hrest
      exact ⟨ids, hloop, hids⟩
    | boolean values =>
      obtain ⟨ids, hloop, hids⟩ := ih ⟨names, pids⟩ hs hrest
      exact ⟨ids, hloop, hids⟩
    | string values =>
      obtain ⟨ids, hloop, hids⟩ := ih ⟨names, pids⟩ hs hrest
      exact ⟨ids, hloop, hids⟩

theorem nameVisitor_tables_ok (p : Partition) (tsym : Option Nat) (R : Nat → Prop) :
    ∀ (tbls : List (Nat × Table)) (s : NameVisitorState),
      (∀ i ∈ s.partitionColumnIds, R i) →
      (∀ st ∈ tbls, ∀ cc ∈ st.2.columns, R cc.1) →
      ∃ ids, visitTablesLoop nameVisitor p tsym none tbls s = .ok ⟨s.columnNames, ids⟩ ∧
        ∀ i ∈ ids, R i := by
  intro tbls
  induction tbls with
  | nil =>
    intro s hs _
    exact ⟨s.partitionColumnIds, rfl, hs⟩
  | cons st rest ih =>
    intro s hs htbls
    obtain ⟨sym, t⟩ := st
    have hrest : ∀ st ∈ rest, ∀ cc ∈ st.2.columns, R cc.1 :=
      fun st h => htbls st (List.mem_cons_of_mem _ h)
    cases hid : t.matchesIdPredicate tsym with
    | false =>
      obtain ⟨ids, hloop, hids⟩ := ih s hs hrest
      refine ⟨ids, ?_, hids⟩
      simp only [visitTablesLoop, hid, Bool.false_eq_true, if_false]
      exact hloop
    | true =>
      obtain ⟨ids1, hcols, hids1⟩ := nameVisitor_columns_ok t R t.columns s hs
        (htbls _ (List.mem_cons_self _ _))
      obtain ⟨ids, hloop, hids⟩ := ih ⟨s.columnNames, ids1⟩ hids1 hrest
      refine ⟨ids, ?_, hids⟩
      simp only [visitTablesLoop, hid, if_true, Table.matchesTimestampPredicate, exc_bind_ok]
      have hpreT : nameVisitor.preVisitTable s t p none = .ok s := rfl
      have hpostT : nameVisitor.postVisitTable ⟨s.columnNames, ids1⟩ t p =
        .ok ⟨s.columnNames, ids1⟩ := rfl
      simp only [hpreT, exc_bind_ok, hcols, hpostT]
      exact hloop

theorem nameVisitor_missing_table (tname : String) :
    ∀ ps : List Partition, ps.all Partition.idsResolvable = true →
      (∃ p ∈ ps, p.dict.lookupValue tname = none) →
      ∀ s, ∃ pk, visitPartitionsLoop nameVisitor (some tname) none ps s =
        .error (.tableNameNotFoundInDictionary tname pk) := by
  intro ps
  induction ps with
  | nil =>
    intro _ h
    rcases h with ⟨p, hp, _⟩
    cases hp
  | cons p rest ih =>
    intro hres hmiss s
    rw [List.all_cons, Bool.and_eq_true] at hres
    cases hlook : p.dict.lookupValue tname with
    | none =>
      refine ⟨p.key, ?_⟩
      simp only [visitPartitionsLoop, Partition.makeTimestampPredicate, exc_bind_ok, hlook,
        exc_bind_error]
    | some sym =>
      have hmiss' : ∃ q ∈ rest, q.dict.lookupValue tname = none := by
        rcases hmiss with ⟨q, hq, hqn⟩
        rcases List.mem_cons.mp hq with rfl | hq2
        · rw [hlook] at hqn; cases hqn
        · exact ⟨q, hq2, hqn⟩
      have hR : ∀ st ∈ p.tables, ∀ cc ∈ st.2.columns,
          (p.dict.lookupId cc.1).isSome = true := by
        intro st hst cc hcc
        have h1 := hres.1
        rw [Partition.idsResolvable, List.all_eq_true] at h1
        have h2 := h1 st hst
        rw [Bool.and_eq_true, List.all_eq_true] at h2
        have h3 := h2.2 cc hcc
        rw [Bool.and_eq_true] at h3
        exact h3.1
      obtain ⟨ids, htbl, hids⟩ := nameVisitor_tables_ok p (some sym)
        (fun i => (p.dict.lookupId i).isSome = true) p.tables ⟨s.columnNames, []⟩
        (by intro i hi; cases hi) hR
      obtain ⟨out, hmat⟩ := materializeIds_ok p .columnIdNotFoundInDictionary ids hids
        s.columnNames
      obtain ⟨pk, hrest2⟩ := ih hres.2 hmiss' ⟨out, ids⟩
      refine ⟨pk, ?_⟩
      have hpreP : nameVisitor.preVisitPartition s p = .ok ⟨s.columnNames, []⟩ := rfl
      have hpostP : nameVisitor.postVisitPartition ⟨s.columnNames, ids⟩ p = .ok ⟨out, ids⟩ := by
        simp only [nameVisitor, hmat, exc_bind_ok]
      simp only [visitPartitionsLoop, Partition.makeTimestampPredicate, exc_bind_ok, hlook,
        hpreP, htbl, hpostP]
      exact hrest2

theorem valueVisitor_columns_ok (cname : String) (t : Table) (d : Dictionary) (cid : Nat) :
    ∀ (cols : List (Nat × Column)) (s : ValueVisitorState),
      s.columnId = some cid →
      (∀ i ∈ s.partitionValueIds, (d.lookupId i).isSome = true) →
      (∀ cc ∈ cols, (cc.1 = cid → cc.2.isTag = true) ∧ cc.2.symbolsResolvable d = true) →
      ∃ ids, visitColumnsLoop (valueVisitor cname) t none cols s =
          .ok ⟨some cid, ids, s.columnValues⟩ ∧
        ∀ i ∈ ids, (d.lookupId i).isSome = true := by
  intro cols
  induction cols with
  | nil =>
    intro s hsc hs _
    obtain ⟨c0, pids, cvals⟩ := s
    cases hsc
    exact ⟨pids, rfl, hs⟩
  | cons cc rest ih =>
    intro s hsc hs hcols
    obtain ⟨k, c⟩ := cc
    obtain ⟨c0, pids, cvals⟩ := s
    cases hsc
    have hrest : ∀ cc ∈ rest, (cc.1 = cid → cc.2.isTag = true) ∧ cc.2.symbolsResolvable d = true :=
      fun cc h => hcols cc (List.mem_cons_of_mem _ h)
    by_cases hk : k = cid
    · subst hk
      have htag : c.isTag = true := (hcols _ (List.mem_cons_self _ _)).1 rfl
      cases c with
      | tag values =>
        have hvals : ∀ v ∈ values.filterMap id, (d.lookupId v).isSome = true := by
          intro v hv
          rw [List.mem_filterMap] at hv
          obtain ⟨o, ho, hoeq⟩ := hv
          have hsym := (hcols _ (List.mem_cons_self _ _)).2
          rw [Column.symbolsResolvable, List.all_eq_true] at hsym
          have hres := hsym o ho
          cases o with
          | none => cases hoeq
          | some v' =>
            cases hoeq
            simpa using hres
        have hstep : (valueVisitor cname).visitColumn ⟨some k, pids, cvals⟩ t k
            (.tag values) none =
            .ok ⟨some k, (values.filterMap id).foldl (fun ids v => insertSortedNat v ids) pids,
              cvals⟩ := by
          simp only [valueVisitor, bne_self_eq_false, Bool.false_eq_true, if_false]
        obtain ⟨ids, hloop, hids⟩ := ih
          ⟨some k, (values.filterMap id).foldl (fun ids v => insertSortedNat v ids) pids, cvals⟩
          rfl
          (fun i hi => (foldl_insertSortedNat_mem _ _ _ hi).elim (hs i) (hvals i))
          hrest
        refine ⟨ids, ?_, hids⟩
        simp only [visitColumnsLoop, hstep, exc_bind_ok]
        exact hloop
      | i64 values => simp [Column.isTag] at htag
      | f64 values => simp [Column.isTag] at htag
      | boolean values => simp [Column.isTag] at htag
      | string values => simp [Column.isTag] at htag
    · have hstep : (valueVisitor cname).visitColumn ⟨some cid, pids, cvals⟩ t k c none =
          .ok ⟨some cid, pids, cvals⟩ := by
        have hcond : (some k != some cid) = true := by
          simp only [bne_iff_ne, ne_eq, Option.some.injEq]
          exact hk
        simp only [valueVisitor, hcond, if_true]
      obtain ⟨ids, hloop, hids⟩ := ih ⟨some cid, pids, cvals⟩ rfl hs hrest
      refine ⟨ids, ?_, hids⟩
      simp only [visitColumnsLoop, hstep, exc_bind_ok]
      exact hloop

theorem valueVisitor_tables_ok (cname : String) (p : Partition) (tsym : Option Nat)
    (d : Dictionary) (cid : Nat) :
    ∀ (tbls : List (Nat × Table)) (s : ValueVisitorState),
      s.columnId = some cid →
      (∀ i ∈ s.partitionValueIds, (d.lookupId i).isSome = true) →
      (∀ st ∈ tbls, ∀ cc ∈ st.2.columns,
        (cc.1 = cid → cc.2.isTag = true) ∧ cc.2.symbolsResolvable d = true) →
      ∃ ids, visitTablesLoop (valueVisitor cname) p tsym none tbls s =
          .ok ⟨some cid, ids, s.columnValues⟩ ∧
        ∀ i ∈ ids, (d.lookupId i).isSome = true := by
  intro tbls
  induction tbls with
  | nil =>
    intro s hsc hs _
    obtain ⟨c0, pids, cvals⟩ := s
    cases hsc
    exact ⟨pids, rfl, hs⟩
  | cons st rest ih =>
    intro s hsc hs htbls
    obtain ⟨sym, t⟩ := st
    have hrest : ∀ st ∈ rest, ∀ cc ∈ st.2.columns,
        (cc.1 = cid → cc.2.isTag = true) ∧ cc.2.symbolsResolvable d = true :=
      fun st h => htbls st (List.mem_cons_of_mem _ h)
    cases hid : t.matchesIdPredicate tsym with
    | false =>
      obtain ⟨ids, hloop, hids⟩ := ih s hsc hs hrest
      refine ⟨ids, ?_, hids⟩
      simp only [visitTablesLoop, hid, Bool.false_eq_true, if_false]
      exact hloop
    | true =>
      obtain ⟨ids1, hcols, hids1⟩ := valueVisitor_columns_ok cname t d cid t.columns s hsc hs
        (htbls _ (List.mem_cons_self _ _))
      obtain ⟨ids, hloop, hids⟩ := ih ⟨some cid, ids1, s.columnValues⟩ rfl hids1 hrest
      refine ⟨ids, ?_, hids⟩
      simp only [visitTablesLoop, hid, if_true, Table.matchesTimestampPredicate, exc_bind_ok]
      have hpreT : (valueVisitor cname).preVisitTable s t p none = .ok s := rfl
      have hpostT : (valueVisitor cname).postVisitTable ⟨some cid, ids1, s.columnValues⟩ t p =
        .ok ⟨some cid, ids1, s.columnValues⟩ := rfl
      simp only [hpreT, exc_bind_ok, hcols, hpostT]
      exact hloop

theorem valueVisitor_missing_table (tname cname : String) :
    ∀ ps : List Partition, ps.all Partition.idsResolvable = true →
      (ps.all fun p => p.columnAllTag cname) = true →
      (∃ p ∈ ps, p.dict.lookupValue tname = none) →
      ∀ s, ∃ pk, visitPartitionsLoop (valueVisitor cname) (some tname) none ps s =
        .error (.tableNameNotFoundInDictionary tname pk) := by
  intro ps
  induction ps with
  | nil =>
    intro _ _ h
    rcases h with ⟨p, hp, _⟩
    cases hp
  | cons p rest ih =>
    intro hres htag hmiss s
    rw [List.all_cons, Bool.and_eq_true] at hres htag
    cases hlook : p.dict.lookupValue tname with
    | none =>
      refine ⟨p.key, ?_⟩
      simp only [visitPartitionsLoop, Partition.makeTimestampPredicate, exc_bind_ok, hlook,
        exc_bind_error]
    | some sym =>
      have hmiss' : ∃ q ∈ rest, q.dict.lookupValue tname = none := by
        rcases hmiss with ⟨q, hq, hqn⟩
        rcases List.mem_cons.mp hq with rfl | hq2
        · rw [hlook] at hqn; cases hqn
        · exact ⟨q, hq2, hqn⟩
      have hp1 := htag.1
      rw [Partition.columnAllTag] at hp1
      cases hcn : p.dict.lookupValue cname with
      | none => rw [hcn] at hp1; cases hp1
      | some cid =>
        rw [hcn] at hp1
        have hcond : ∀ st ∈ p.tables, ∀ cc ∈ st.2.columns,
            (cc.1 = cid → cc.2.isTag = true) ∧ cc.2.symbolsResolvable p.dict = true := by
          intro st hst cc hcc
          constructor
          · intro hcc1
            rw [List.all_eq_true] at hp1
            have h2 := hp1 st hst
            rw [List.all_eq_true] at h2
            have h3 := h2 cc hcc
            rw [Bool.or_eq_true] at h3
            rcases h3 with h3 | h3
            · rw [hcc1, bne_self_eq_false] at h3; cases h3
            · exact h3
          · have h1 := hres.1
            rw [Partition.idsResolvable, List.all_eq_true] at h1
            have h2 := h1 st hst
            rw [Bool.and_eq_true, List.all_eq_true] at h2
            have h3 := h2.2 cc hcc
            rw [Bool.and_eq_true] at h3
            exact h3.2
        obtain ⟨ids, htbl, hids⟩ := valueVisitor_tables_ok cname p (some sym) p.dict cid
          p.tables ⟨some cid, [], s.columnValues⟩ rfl (by intro i hi; cases hi) hcond
        obtain ⟨out, hmat⟩ := materializeIds_ok p .columnValueIdNotFoundInDictionary ids hids
          s.columnValues
        obtain ⟨pk, hrest2⟩ := ih hres.2 htag.2 hmiss' ⟨some cid, ids, out⟩
        refine ⟨pk, ?_⟩
        have hpreP : (valueVisitor cname).preVisitPartition s p =
            .ok ⟨some cid, [], s.columnValues⟩ := by
          simp only [valueVisitor, hcn]
        have hpostP : (valueVisitor cname).postVisitPartition ⟨some cid, ids, s.columnValues⟩ p =
            .ok ⟨some cid, ids, out⟩ := by
          simp only [valueVisitor, hmat, exc_bind_ok]
        simp only [visitPartitionsLoop, Partition.makeTimestampPredicate, exc_bind_ok, hlook,
          hpreP, htbl, hpostP]
        exact hrest2

/-- C8: with a table-name filter and at least one partition whose dictionary
does not intern that name, both `tag_column_names` and `column_values` fail
with `TableNameNotFoundInDictionary` (the partition is not silently skipped),
even if other partitions contain the table — here with no timestamp range and
no general predicate, over partitions whose symbol ids resolve and (for
`column_values`) that intern the target column name as a tag column. -/
theorem filteredReads_missing_table_name_fail (db : Db) (tname cname : String)
    (hres : db.partitions.all Partition.idsResolvable = true)
    (htag : (db.partitions.all fun p => p.columnAllTag cname) = true)
    (hmiss : ∃ p ∈ db.partitions, p.dict.lookupValue tname = none) :
    (∃ pk, db.tagColumnNames (some tname) none none =
      .error (.tableNameNotFoundInDictionary tname pk)) ∧
    (∃ pk, db.columnValues cname (some tname) none none =
      .error (.tableNameNotFoundInDictionary tname pk)) := by
  constructor
  · obtain ⟨pk, hloop⟩ := nameVisitor_missing_table tname db.partitions hres hmiss ⟨[], []⟩
    refine ⟨pk, ?_⟩
    show (do
      let s ← db.visitTables (some tname) none nameVisitor ⟨[], []⟩
      Except.ok (StringSetPlan.known s.columnNames)) = _
    show (do
      let s ← visitPartitionsLoop nameVisitor (some tname) none db.partitions ⟨[], []⟩
      Except.ok (StringSetPlan.known s.columnNames)) = _
    rw [hloop]
    rfl
  · obtain ⟨pk, hloop⟩ := valueVisitor_missing_table tname cname db.partitions hres htag hmiss
      ⟨none, [], []⟩
    refine ⟨pk, ?_⟩
    show (do
      let s ← db.visitTables (some tname) none (valueVisitor cname) ⟨none, [], []⟩
      Except.ok (StringSetPlan.known s.columnValues)) = _
    show (do
      let s ← visitPartitionsLoop (valueVisitor cname) (some tname) none db.partitions
        ⟨none, [], []⟩
      Except.ok (StringSetPlan.known s.columnValues)) = _
    rw [hloop]
    rfl

/-- Witness for C8 at the concrete split database: the second partition does
not intern `cpu` although the first contains it. -/
theorem filteredReads_missing_table_name_fail_witness :
    (∃ pk, exDbSplitR.tagColumnNames (some "cpu") none none =
      .error (.tableNameNotFoundInDictionary "cpu" pk)) ∧
    (∃ pk, exDbSplitR.columnValues "region" (some "cpu") none none =
      .error (.tableNameNotFoundInDictionary "cpu" pk)) :=
  filteredReads_missing_table_name_fail exDbSplitR "cpu" "region" (by decide) (by decide)
    ⟨exPartitionMemR, by simp [exDbSplitR], by decide⟩

theorem valueVisitor_columns_nontag (cname : String) (t : Table) (cid : Nat) (c : Column)
    (s : ValueVisitorState) (hs : s.columnId = some cid) :
    ∀ cols : List (Nat × Column), cols.lookup cid = some c → c.isTag = false →
      visitColumnsLoop (valueVisitor cname) t none cols s =
        .error (.unsupportedColumnTypeForListingValues cname) := by
  intro cols
  induction cols with
  | nil => intro h; cases h
  | cons kc rest ih =>
    intro hlook hnottag
    obtain ⟨k, c'⟩ := kc
    simp only [List.lookup] at hlook
    by_cases hk : cid = k
    · subst hk
      rw [beq_self_eq_true] at hlook
      cases hlook
      have hstep : (valueVisitor cname).visitColumn s t cid c none =
          .error (.unsupportedColumnTypeForListingValues cname) := by
        simp only [valueVisitor, hs, bne_self_eq_false, Bool.false_eq_true, if_false]
        cases c with
        | tag values => simp [Column.isTag] at hnottag
        | i64 values => rfl
        | f64 values => rfl
        | boolean values => rfl
        | string values => rfl
      simp only [visitColumnsLoop, hstep, exc_bind_error]
    · have hkb : (cid == k) = false := by
        simpa using hk
      rw [hkb] at hlook
      have hstep : (valueVisitor cname).visitColumn s t k c' none = .ok s := by
        have hcond : (some k != s.columnId) = true := by
          rw [hs]
          simp only [bne_iff_ne, ne_eq, Option.some.injEq]
          exact fun h => hk h.symm
        simp only [valueVisitor, hcond, if_true]
      simp only [visitColumnsLoop, hstep, exc_bind_ok]
      exact ih hlook hnottag

/-- C4 (amended): without a general predicate, `column_values` fails with
`UnsupportedColumnTypeForListingValues` when the traversal visits the named
column and it is not a Tag column — here for a database of one partition
holding one table (visited with no table filter and no range) in which the
name resolves to a non-tag column.  When the timestamp range filters the table
out entirely, or a predicate is supplied (deferring to plans), the call does
not raise this error (see the counterexample). -/
theorem columnValues_visits_nontag_error (dbName : String) (hw : Bool) (p : Partition)
    (cname : String) (cid : Nat) (sym : Nat) (t : Table) (c : Column)
    (hdict : p.dict.lookupValue cname = some cid)
    (htab : p.tables = [(sym, t)])
    (hcol : t.columns.lookup cid = some c)
    (hnottag : c.isTag = false) :
    (Db.mk dbName [p] hw).columnValues cname none none none =
      .error (.unsupportedColumnTypeForListingValues cname) := by
  have hcols := valueVisitor_columns_nontag cname t cid c ⟨some cid, [], []⟩ rfl
    t.columns hcol hnottag
  have hpre : (valueVisitor cname).preVisitPartition ⟨none, [], []⟩ p =
      .ok ⟨some cid, [], []⟩ := by
    simp only [valueVisitor, hdict]
  show (do
    let s ← (Db.mk dbName [p] hw).visitTables none none (valueVisitor cname) ⟨none, [], []⟩
    Except.ok (StringSetPlan.known s.columnValues)) = _
  have hpreT : ∀ s, (valueVisitor cname).preVisitTable s t p none = .ok s := fun _ => rfl
  have hv : (Db.mk dbName [p] hw).visitTables none none (valueVisitor cname) ⟨none, [], []⟩ =
      .error (.unsupportedColumnTypeForListingValues cname) := by
    show visitPartitionsLoop (valueVisitor cname) none none [p] ⟨none, [], []⟩ = _
    simp only [visitPartitionsLoop, Partition.makeTimestampPredicate, exc_bind_ok, hpre, htab,
      visitTablesLoop, Table.matchesIdPredicate, Table.matchesTimestampPredicate, if_true]
    simp only [hpreT, exc_bind_ok, hcols, exc_bind_error]
  rw [hv]
  rfl

/-- Counterexample to C4 as stated: in `exDbF64` the column `user` exists and
is an F64 (non-tag) column, yet `column_values` succeeds both when the
timestamp range `[0,50)` filters out the only table and when a general
predicate is supplied (the plan branch never checks the column type); the
claimed unconditional failure does not happen. -/
theorem columnValues_nontag_counterexample :
    exDbF64.columnValues "user" none (some ⟨0, 50⟩) none = .ok (.known []) ∧
    exDbF64.columnValues "user" none none
        (some ⟨.binary (.column "state") .eqOp (.literal "MA")⟩) =
      .ok (.plans [.tagValuesPlan "user" 0 "1970-01-01T00"
        ⟨.binary (.column "state") .eqOp (.literal "MA")⟩ none]) ∧
    exPartitionF64.dict.lookupValue "user" = some 2 ∧
    (exPartitionF64.tables.lookup 0).map
        (fun t => t.columns.lookup 2) = some (some (.f64 [some 42])) ∧
    (Column.f64 [some 42]).isTag = false := by
  decide

/-- Witness for C4 (amended), at the concrete F64 database with no range and
no predicate. -/
theorem columnValues_visits_nontag_error_witness :
    (Db.mk "db" [exPartitionF64] true).columnValues "user" none none none =
      .error (.unsupportedColumnTypeForListingValues "user") :=
  columnValues_visits_nontag_error "db" true exPartitionF64 "user" 2 0
    ⟨0, [(1, .i64 [some 100]), (2, .f64 [some 42])]⟩ (.f64 [some 42])
    (by decide) rfl (by decide) rfl

/-- Witness for C3 (amended), at a concrete one-partition database and the
concrete split database. -/
theorem tableToArrow_one_batch_per_partition_witness :
    ([[("region", Column.tag [some 2, some 2]), ("time", Column.i64 [some 100, some 150])]]
        : List RecordBatch).length = exDb.partitions.length ∧
    ∃ e, exDbSplit.tableToArrow "cpu" [] = .error e :=
  ⟨(tableToArrow_one_batch_per_partition exDb "cpu" []).1 _ (by decide),
   (tableToArrow_one_batch_per_partition exDbSplit "cpu" []).2
     ⟨exPartitionMem, by simp [exDbSplit], ⟨.tableNameNotFoundInDictionary "cpu" "1970-01-01T01", by decide⟩⟩⟩

end WriteBuffer
